import Mathlib

/-!
VARTA-IoT sensors: validated SHT, validated DS18B20, INA219 battery monitor.

Shallow embedding of

* `src/src/sensor_sht_validated.cpp` / `.h`  (`Sensor_SHT_Validated`),
* `src/src/sensor_ds18b20_validated.h`       (`Sensor_DS18B20_Validated`, declaration only),
* `src/ina_219_sensor/sensor_ina219.cpp` / `.h` (`Sensor_INA219`).

Modelling conventions:

* A C++ `float` / `double` is an IEEE 754 datum, modelled by value (`FV`): NaN, a signed
  infinity, or a finite rational together with the sign of zero.  Arithmetic is the IEEE
  operation: the exact rational result rounded to nearest, ties to even, in the format of the
  operation (`binary32` for `float`, `binary64` for `double`), with gradual underflow and
  overflow to infinity.  Widening `float → double` is exact and is the identity on `FV`.
  The values of type `float` are the data satisfying `FV.IsF32`.
* The device drivers (`SHT85`/`SHT4x`, `Adafruit_INA219`) are outside the repository: what a
  driver call returns is an input of the step function.
* `OUTfloat` is a class of the Frugal-IoT library.  A channel is modelled by its construction
  parameters and by the history of the values handed to `OUTfloat::set`, newest first; a cycle
  that does not call `set` on a channel leaves that channel untouched.
-/

namespace Varta

/-! ## IEEE 754 data -/

/-- An IEEE 754 datum by value.  In `fin q z` the flag `z` is the sign bit, which is only
significant when `q = 0` (it tells `-0.0` from `+0.0`). -/
inductive FV where
  | nan : FV
  | inf (neg : Bool) : FV
  | fin (q : ℚ) (z : Bool) : FV

instance : DecidableEq FV := fun a b =>
  match a, b with
  | .nan, .nan => isTrue rfl
  | .nan, .inf _ => isFalse (fun h => FV.noConfusion h)
  | .nan, .fin _ _ => isFalse (fun h => FV.noConfusion h)
  | .inf _, .nan => isFalse (fun h => FV.noConfusion h)
  | .inf s, .inf t =>
      if h : s = t then isTrue (congrArg FV.inf h)
      else isFalse (fun h2 => h (FV.inf.inj h2))
  | .inf _, .fin _ _ => isFalse (fun h => FV.noConfusion h)
  | .fin _ _, .nan => isFalse (fun h => FV.noConfusion h)
  | .fin _ _, .inf _ => isFalse (fun h => FV.noConfusion h)
  | .fin x z, .fin y w =>
      if h : x = y ∧ z = w then isTrue (congrArg₂ FV.fin h.1 h.2)
      else isFalse (fun h2 => h ⟨(FV.fin.inj h2).1, (FV.fin.inj h2).2⟩)

/-- Sign bit of a datum (`true` = negative). -/
def FV.signBit : FV → Bool
  | .nan => false
  | .inf s => s
  | .fin q z => if q = 0 then z else decide (q < 0)

/-- The C++ operator `==` on floating-point operands. -/
def feq : FV → FV → Bool
  | .fin x _, .fin y _ => decide (x = y)
  | .inf s, .inf t => decide (s = t)
  | _, _ => false

/-- The C++ operator `<` on floating-point operands. -/
def flt : FV → FV → Bool
  | .nan, _ => false
  | _, .nan => false
  | .inf s, .inf t => s && !t
  | .inf s, .fin _ _ => s
  | .fin _ _, .inf t => !t
  | .fin x _, .fin y _ => decide (x < y)

/-- The C++ operator `>`. -/
def fgt (a b : FV) : Bool := flt b a

/-- The C++ operator `<=`. -/
def fle (a b : FV) : Bool := flt a b || feq a b

/-- The C++ operator `>=`. -/
def fge (a b : FV) : Bool := fle b a

/-- The C library classification `isnan`. -/
def FV.isNaN : FV → Bool
  | .nan => true
  | _ => false

/-- The C library classification `isfinite`. -/
def FV.isFinite : FV → Bool
  | .fin _ _ => true
  | _ => false

/-! ## Rounding -/

/-- A binary interchange format: precision in bits and exponent range of normal numbers. -/
structure Fmt where
  prec : ℕ
  emin : ℤ
  emax : ℤ

/-- The format of a C++ `float`. -/
def binary32 : Fmt := ⟨24, -126, 127⟩

/-- The format of a C++ `double`. -/
def binary64 : Fmt := ⟨53, -1022, 1023⟩

/-- Binary logarithm of a natural number by repeated halving, at most `fuel` times. -/
def log2Fuel : ℕ → ℕ → ℕ
  | 0, _ => 0
  | fuel + 1, n => if n < 2 then 0 else log2Fuel fuel (n / 2) + 1

/-- The natural number `k` with `2 ^ k ≤ n < 2 ^ (k + 1)`, for `n ≠ 0`. -/
def natLog2 (n : ℕ) : ℕ := log2Fuel n n

/-- The integer `e` with `2 ^ e ≤ |q| < 2 ^ (e + 1)`, for `q ≠ 0`. -/
def ilog2 (q : ℚ) : ℤ :=
  let e0 : ℤ := (natLog2 q.num.natAbs : ℤ) - (natLog2 q.den : ℤ)
  if (2 : ℚ) ^ e0 ≤ |q| then e0 else e0 - 1

/-- Round to the nearest integer, ties to even. -/
def rne (x : ℚ) : ℤ :=
  let f := ⌊x⌋
  let r := x - f
  if r < 1 / 2 then f else if 1 / 2 < r then f + 1 else if f % 2 = 0 then f else f + 1

/-- Exponent of the unit in the last place used for a magnitude `a`: subnormal magnitudes
share the unit of the smallest normal binade. -/
def Fmt.ulpExp (F : Fmt) (a : ℚ) : ℤ := max (ilog2 a) F.emin - ((F.prec : ℤ) - 1)

/-- Round a magnitude to the format's grid, to nearest, ties to even, with unbounded
exponent above. -/
def Fmt.roundMag (F : Fmt) (a : ℚ) : ℚ :=
  (rne (a / (2 : ℚ) ^ F.ulpExp a) : ℚ) * (2 : ℚ) ^ F.ulpExp a

/-- Largest finite magnitude of the format. -/
def Fmt.maxFinite (F : Fmt) : ℚ :=
  ((2 : ℚ) ^ F.prec - 1) * (2 : ℚ) ^ (F.emax - ((F.prec : ℤ) - 1))

/-- IEEE rounding of the exact result `q` of an operation; `zs` is the sign the operation
gives to an exact zero. -/
def Fmt.round (F : Fmt) (q : ℚ) (zs : Bool) : FV :=
  if q = 0 then .fin 0 zs
  else if F.maxFinite < F.roundMag |q| then .inf (decide (q < 0))
  else .fin (if q < 0 then -F.roundMag |q| else F.roundMag |q|) (decide (q < 0))

/-- Subtraction `a - b` in format `F`. -/
def fsub (F : Fmt) : FV → FV → FV
  | .nan, _ => .nan
  | _, .nan => .nan
  | .inf s, .inf t => if s = t then .nan else .inf s
  | .inf s, .fin _ _ => .inf s
  | .fin _ _, .inf t => .inf (!t)
  | .fin x sx, .fin y sy =>
      F.round (x - y) ((FV.fin x sx).signBit && !(FV.fin y sy).signBit)

/-- Division `a / b` in format `F`. -/
def fdiv (F : Fmt) : FV → FV → FV
  | .nan, _ => .nan
  | _, .nan => .nan
  | .inf _, .inf _ => .nan
  | .inf s, .fin y sy => .inf (xor s (FV.fin y sy).signBit)
  | .fin x sx, .inf t => .fin 0 (xor (FV.fin x sx).signBit t)
  | .fin x sx, .fin y sy =>
      if y = 0 then
        if x = 0 then .nan else .inf (xor (FV.fin x sx).signBit (FV.fin y sy).signBit)
      else F.round (x / y) (xor (FV.fin x sx).signBit (FV.fin y sy).signBit)

/-- Multiplication `a * b` in format `F`. -/
def fmul (F : Fmt) : FV → FV → FV
  | .nan, _ => .nan
  | _, .nan => .nan
  | .inf s, .inf t => .inf (xor s t)
  | .inf s, .fin y sy => if y = 0 then .nan else .inf (xor s (FV.fin y sy).signBit)
  | .fin x sx, .inf t => if x = 0 then .nan else .inf (xor (FV.fin x sx).signBit t)
  | .fin x sx, .fin y sy => F.round (x * y) (xor (FV.fin x sx).signBit (FV.fin y sy).signBit)

/-- Conversion of a datum to format `F` (the narrowing `double → float` when `F = binary32`). -/
def fcvt (F : Fmt) : FV → FV
  | .nan => .nan
  | .inf s => .inf s
  | .fin q z => F.round q (FV.fin q z).signBit

/-- A decimal literal of type `double`. -/
def dlit (q : ℚ) : FV := binary64.round q false

/-- A decimal literal converted to `float` (`0.0f`, or a `double` literal passed where a
`float` is expected, as in `float maxV = 4.2`). -/
def flit (q : ℚ) : FV := fcvt binary32 (dlit q)

/-- The datum is a value of type `float`: NaN, an infinity, or a finite value that
binary32 rounding leaves unchanged. -/
def FV.IsF32 : FV → Prop
  | .fin q _ => binary32.round q false = .fin q (decide (q < 0))
  | _ => True

instance (v : FV) : Decidable v.IsF32 := by
  cases v <;> unfold FV.IsF32 <;> infer_instance

/-- Modelled from the spec: the macro `constrain(amt,low,high)` belongs to the Arduino core
and is not among the sources.  The spec calls it the clamp of `amt` to `[low, high]`; the
core defines it as `((amt)<(low)?(low):((amt)>(high)?(high):(amt)))`, which is that clamp on
every `amt` that compares with the bounds, and is transcribed here. -/
def constrain (amt low high : FV) : FV :=
  if flt amt low then low else if fgt amt high then high else amt

/-! ## Output channels -/

/-- Modelled from the spec: the class `OUTfloat` belongs to the Frugal-IoT library and is not
among the sources.  The spec describes it as a named, bounded value holder that is mutated
only through `set`.  A channel is modelled by its construction parameters and the values
handed to `set`, newest first. -/
structure OUTfloat where
  sensorId : String
  id : String
  name : String
  value : FV
  decimals : ℕ
  min : FV
  max : FV
  color : String
  wireable : Bool
  written : List FV
deriving DecidableEq

/-- Modelled from the spec: the call `channel->set(v)` hands `v` to the channel (which,
by the spec, clamps and stores it and notifies the subscribers). -/
def OUTfloat.set (c : OUTfloat) (v : FV) : OUTfloat := { c with written := v :: c.written }

/-! ## Sensor_SHT_Validated -/

/-- The driver object `_sht`: the result of the last `begin()` (`none` before `setup()`)
and the number of `requestData()` calls issued so far. -/
structure SHT_Device where
  begun : Option Bool
  requests : ℕ
deriving DecidableEq

/-- The call `_sht->requestData()`. -/
def SHT_Device.requestData (d : SHT_Device) : SHT_Device := { d with requests := d.requests + 1 }

/-- What the driver answers during one cycle: `dataReady()`, `readData()`,
`getTemperature()`, `getHumidity()`. -/
structure SHT_Reply where
  dataReady : Bool
  readData : Bool
  getTemperature : FV
  getHumidity : FV

/-- State of a `Sensor_SHT_Validated`: address, driver, and the two channels of the base
class `Sensor_HT`. -/
structure Sensor_SHT_Validated where
  address : ℕ
  sht : SHT_Device
  temperature : OUTfloat
  humidity : OUTfloat
deriving DecidableEq

namespace Sensor_SHT_Validated

/-- The sensor is Ready: `setup()` ran and the driver's `begin()` succeeded. -/
def Ready (s : Sensor_SHT_Validated) : Prop := s.sht.begun = some true

instance (s : Sensor_SHT_Validated) : Decidable s.Ready := by
  unfold Ready; infer_instance

/-- `Sensor_SHT_Validated::setup`: after `Sensor_HT::setup()` of the library base class,
`_sht->begin()` (its result `beginResult` is ignored by the code), then the initial
`requestData()`. -/
def setup (s : Sensor_SHT_Validated) (beginResult : Bool) : Sensor_SHT_Validated :=
  { s with sht := ({ s.sht with begun := some beginResult } : SHT_Device).requestData }

/-- `Sensor_SHT_Validated::validate`. -/
def validate (temp humy : FV) : Bool :=
  if feq temp (flit 0) && feq humy (flit 0) then false else true

/-- Modelled from the spec: `Sensor_HT::set(temp, humy)` belongs to the library base class
and is not among the sources; by the spec it sets both fields together, one `set` on the
temperature channel and one on the humidity channel. -/
def set (s : Sensor_SHT_Validated) (temp humy : FV) : Sensor_SHT_Validated :=
  { s with temperature := s.temperature.set temp, humidity := s.humidity.set humy }

/-- `Sensor_SHT_Validated::readValidateConvertSet`. -/
def readValidateConvertSet (s : Sensor_SHT_Validated) (r : SHT_Reply) : Sensor_SHT_Validated :=
  if r.dataReady then
    if r.readData then
      let temp := r.getTemperature
      let humy := r.getHumidity
      let s1 := if validate temp humy then s.set temp humy else s
      { s1 with sht := s1.sht.requestData }
    else s
  else s

end Sensor_SHT_Validated

/-! ## Sensor_DS18B20_Validated -/

namespace Sensor_DS18B20_Validated

/-- Modelled from the spec: the body of `Sensor_DS18B20_Validated::validate` is not among the
sources (only its declaration in `sensor_ds18b20_validated.h`).  The spec and the header
comment both say: reject if the reading is not a number or the reading is `>= 80.0`. -/
def validate (v : FV) : Bool :=
  if v.isNaN || fge v (dlit 80) then false else true

end Sensor_DS18B20_Validated

/-! ## Sensor_INA219 -/

/-- State of a `Sensor_INA219`.  The vector `outputs` of the base class `Sensor` holds
pointers to the three channels; it is modelled by the ids of the channels registered, in
registration order. -/
structure Sensor_INA219 where
  id : String
  name : String
  retain : Bool
  maxVoltage : FV
  minVoltage : FV
  initialized : Bool
  outputs : List String
  out_voltage : OUTfloat
  out_current : OUTfloat
  out_percentage : OUTfloat
deriving DecidableEq

namespace Sensor_INA219

/-- The constructor `Sensor_INA219::Sensor_INA219`. -/
def new (id name : String) (maxV minV : FV) (retain : Bool) : Sensor_INA219 :=
  { id := id, name := name, retain := retain,
    maxVoltage := maxV, minVoltage := minV, initialized := false,
    outputs := ["voltage", "current", "percentage"],
    out_voltage := ⟨id, "voltage", "Voltage", flit 0, 2, flit 0, flit 32, "yellow", true, []⟩,
    out_current :=
      ⟨id, "current", "Current", flit 0, 1, flit (-3200), flit 3200, "orange", true, []⟩,
    out_percentage :=
      ⟨id, "percentage", "Battery", flit 0, 0, flit 0, flit 100, "green", true, []⟩ }

/-- `Sensor_INA219::setup`; `beginResult` is what `ina219.begin()` returns. -/
def setup (s : Sensor_INA219) (beginResult : Bool) : Sensor_INA219 :=
  if !beginResult then { s with initialized := false }
  else { s with initialized := true }

/-- The two statements of `readValidateConvertSet` that compute the battery percentage:
`float percentage = ((voltage - minVoltage) / (maxVoltage - minVoltage)) * 100.0;`
`percentage = constrain(percentage, 0.0, 100.0);`
The quotient is computed in `float`, the product with the `double` literal in `double`, and
both assignments narrow to `float`. -/
def percentage (voltage minVoltage maxVoltage : FV) : FV :=
  let quot := fdiv binary32 (fsub binary32 voltage minVoltage) (fsub binary32 maxVoltage minVoltage)
  let percentage := fcvt binary32 (fmul binary64 quot (dlit 100))
  fcvt binary32 (constrain percentage (dlit 0) (dlit 100))

/-- `Sensor_INA219::readValidateConvertSet`; `busVoltage_V` and `current_mA` are what
`ina219.getBusVoltage_V()` and `ina219.getCurrent_mA()` return. -/
def readValidateConvertSet (s : Sensor_INA219) (busVoltage_V current_mA : FV) : Sensor_INA219 :=
  if !s.initialized then s
  else
    let voltage := busVoltage_V
    let s1 := { s with out_voltage := s.out_voltage.set voltage }
    let current := current_mA
    let s2 := { s1 with out_current := s1.out_current.set current }
    let percentage := percentage voltage s2.minVoltage s2.maxVoltage
    { s2 with out_percentage := s2.out_percentage.set percentage }

end Sensor_INA219

/-! ## Auxiliary definitions used in the statements and proofs -/

/-- The datum is a zero of either sign. -/
def FV.isZero : FV → Bool
  | .fin q _ => decide (q = 0)
  | _ => false

/-- Exponent of the smallest positive (subnormal) magnitude of the format. -/
def Fmt.gridExp (F : Fmt) : ℤ := F.emin - ((F.prec : ℤ) - 1)

/-- The statements of `percentage` after the quotient: product with `100.0` in `double`,
narrowing, `constrain`, narrowing. -/
def percentageOfQuot (quot : FV) : FV :=
  fcvt binary32 (constrain (fcvt binary32 (fmul binary64 quot (dlit 100))) (dlit 0) (dlit 100))

/-- The largest finite `float`, `FLT_MAX`. -/
def fltMax : FV := .fin binary32.maxFinite false

/-- The smallest finite `float`, `-FLT_MAX`. -/
def fltLowest : FV := .fin (-binary32.maxFinite) false

/-- The battery monitor of `main.cpp` (line 58): `maxV = 4.2`, `minV = 3.0`. -/
def battery : Sensor_INA219 :=
  Sensor_INA219.new "battery" "Battery Monitor" (flit (21 / 5)) (flit 3) true

/-- A `Sensor_SHT_Validated` on which `setup()` never ran, with two fresh channels. -/
def shtFresh : Sensor_SHT_Validated :=
  { address := 0x44,
    sht := ⟨none, 0⟩,
    temperature :=
      ⟨"sht", "temperature", "Temperature", flit 0, 1, flit (-40), flit 125, "red", true, []⟩,
    humidity :=
      ⟨"sht", "humidity", "Humidity", flit 0, 1, flit 0, flit 100, "cyan", true, []⟩ }

/-- A reply of the device with data ready, a successful read and the pair (21.5, 44.0). -/
def shtGoodReply : SHT_Reply := ⟨true, true, flit (43 / 2), flit 44⟩

/-! ## Rounding: exponent and nearest-even -/

theorem log2Fuel_spec (fuel : ℕ) : ∀ n : ℕ, 0 < n → n ≤ fuel →
    2 ^ log2Fuel fuel n ≤ n ∧ n < 2 ^ (log2Fuel fuel n + 1) := by
  induction fuel with
  | zero => intro n h0 h1; omega
  | succ f ih =>
      intro n h0 h1
      unfold log2Fuel
      split_ifs with h2
      · constructor <;> simp <;> omega
      · have h3 := ih (n / 2) (by omega) (by omega)
        obtain ⟨h4, h5⟩ := h3
        rw [pow_succ] at h5
        constructor
        · rw [pow_succ]; omega
        · rw [pow_succ, pow_succ]; omega

theorem natLog2_spec (n : ℕ) (h : 0 < n) : 2 ^ natLog2 n ≤ n ∧ n < 2 ^ (natLog2 n + 1) :=
  log2Fuel_spec n n h le_rfl

theorem two_zpow_pos (e : ℤ) : (0 : ℚ) < (2 : ℚ) ^ e := zpow_pos (by norm_num) e

theorem ilog2_spec (q : ℚ) (hq : q ≠ 0) :
    (2 : ℚ) ^ ilog2 q ≤ |q| ∧ |q| < (2 : ℚ) ^ (ilog2 q + 1) := by
  have hnum : q.num.natAbs ≠ 0 := by
    simpa [Int.natAbs_eq_zero] using hq
  have hden : 0 < q.den := q.den_pos
  obtain ⟨a1, a2⟩ := natLog2_spec q.num.natAbs (Nat.pos_of_ne_zero hnum)
  obtain ⟨b1, b2⟩ := natLog2_spec q.den hden
  have habs : |q| = (q.num.natAbs : ℚ) / (q.den : ℚ) := by
    conv_lhs => rw [← Rat.num_div_den q]
    rw [abs_div, Nat.abs_cast, ← Int.cast_abs, Int.abs_eq_natAbs, Int.cast_natCast]
  have a1q : (2 : ℚ) ^ (natLog2 q.num.natAbs) ≤ (q.num.natAbs : ℚ) := by exact_mod_cast a1
  have a2q : (q.num.natAbs : ℚ) < (2 : ℚ) ^ (natLog2 q.num.natAbs + 1) := by exact_mod_cast a2
  have b1q : (2 : ℚ) ^ (natLog2 q.den) ≤ (q.den : ℚ) := by exact_mod_cast b1
  have b2q : (q.den : ℚ) < (2 : ℚ) ^ (natLog2 q.den + 1) := by exact_mod_cast b2
  have hdq : (0 : ℚ) < (q.den : ℚ) := by exact_mod_cast hden
  have h2 : (2 : ℚ) ≠ 0 := by norm_num
  have hpa : (0 : ℚ) < (2 : ℚ) ^ (natLog2 q.num.natAbs) := by positivity
  have hpb : (0 : ℚ) < (2 : ℚ) ^ (natLog2 q.den) := by positivity
  unfold ilog2
  simp only
  split_ifs with h
  · refine ⟨h, ?_⟩
    rw [habs, div_lt_iff₀ hdq]
    have e1 : (2 : ℚ) ^ ((natLog2 q.num.natAbs : ℤ) - (natLog2 q.den : ℤ) + 1)
        = (2 : ℚ) ^ (natLog2 q.num.natAbs + 1) / (2 : ℚ) ^ (natLog2 q.den) := by
      rw [zpow_add_one₀ h2, zpow_sub₀ h2, zpow_natCast, zpow_natCast, pow_succ]
      ring
    rw [e1, div_mul_eq_mul_div, lt_div_iff₀ hpb]
    calc (q.num.natAbs : ℚ) * (2 : ℚ) ^ (natLog2 q.den)
        ≤ (q.num.natAbs : ℚ) * (q.den : ℚ) := by
          apply mul_le_mul_of_nonneg_left b1q; positivity
      _ < (2 : ℚ) ^ (natLog2 q.num.natAbs + 1) * (q.den : ℚ) := by
          apply mul_lt_mul_of_pos_right a2q hdq
  · push_neg at h
    constructor
    · rw [habs, le_div_iff₀ hdq]
      have e1 : (2 : ℚ) ^ ((natLog2 q.num.natAbs : ℤ) - (natLog2 q.den : ℤ) - 1)
          = (2 : ℚ) ^ (natLog2 q.num.natAbs) / (2 : ℚ) ^ (natLog2 q.den + 1) := by
        rw [zpow_sub_one₀ h2, zpow_sub₀ h2, zpow_natCast, zpow_natCast, pow_succ]
        field_simp
      rw [e1, div_mul_eq_mul_div, div_le_iff₀ (by positivity)]
      calc (2 : ℚ) ^ (natLog2 q.num.natAbs) * (q.den : ℚ)
          ≤ (q.num.natAbs : ℚ) * (q.den : ℚ) := by
            apply mul_le_mul_of_nonneg_right a1q hdq.le
        _ ≤ (q.num.natAbs : ℚ) * (2 : ℚ) ^ (natLog2 q.den + 1) := by
            apply mul_le_mul_of_nonneg_left b2q.le; positivity
    · simpa using h

theorem ilog2_unique (q : ℚ) (e : ℤ) (h1 : (2 : ℚ) ^ e ≤ |q|)
    (h2 : |q| < (2 : ℚ) ^ (e + 1)) :
    ilog2 q = e := by
  have hq : q ≠ 0 := by
    intro h
    rw [h, abs_zero] at h1
    exact absurd h1 (not_le.mpr (two_zpow_pos e))
  obtain ⟨s1, s2⟩ := ilog2_spec q hq
  have l1 : (2 : ℚ) ^ ilog2 q < (2 : ℚ) ^ (e + 1) := lt_of_le_of_lt s1 h2
  have l2 : (2 : ℚ) ^ e < (2 : ℚ) ^ (ilog2 q + 1) := lt_of_le_of_lt h1 s2
  rw [zpow_lt_zpow_iff_right₀ (by norm_num)] at l1 l2
  omega

theorem ilog2_mono (a b : ℚ) (ha : 0 < a) (hab : a ≤ b) : ilog2 a ≤ ilog2 b := by
  obtain ⟨s1, _⟩ := ilog2_spec a ha.ne'
  obtain ⟨_, t2⟩ := ilog2_spec b (ha.trans_le hab).ne'
  rw [abs_of_pos ha] at s1
  rw [abs_of_pos (ha.trans_le hab)] at t2
  have l : (2 : ℚ) ^ ilog2 a < (2 : ℚ) ^ (ilog2 b + 1) := lt_of_le_of_lt (s1.trans hab) t2
  rw [zpow_lt_zpow_iff_right₀ (by norm_num)] at l
  omega

theorem rne_bounds (x : ℚ) : ⌊x⌋ ≤ rne x ∧ rne x ≤ ⌊x⌋ + 1 := by
  unfold rne
  simp only
  split_ifs <;> constructor <;> omega

theorem rne_intCast (n : ℤ) : rne (n : ℚ) = n := by
  unfold rne
  simp

theorem rne_mono (x y : ℚ) (h : x ≤ y) : rne x ≤ rne y := by
  have hf : ⌊x⌋ ≤ ⌊y⌋ := Int.floor_mono h
  rcases lt_or_eq_of_le hf with hlt | heq
  · have := (rne_bounds x).2
    have := (rne_bounds y).1
    omega
  · unfold rne
    simp only
    rw [← heq]
    have hr : x - (⌊x⌋ : ℚ) ≤ y - (⌊x⌋ : ℚ) := by linarith
    split_ifs <;> first | omega | linarith

theorem rne_nonneg (x : ℚ) (h : 0 ≤ x) : 0 ≤ rne x := by
  have := rne_mono 0 x h
  have h0 : rne (0 : ℚ) = 0 := by simpa using rne_intCast 0
  omega

/-! ## Rounding of magnitudes -/

theorem Fmt.gridExp_le_ulpExp (F : Fmt) (a : ℚ) : F.gridExp ≤ F.ulpExp a := by
  unfold Fmt.gridExp Fmt.ulpExp
  have := le_max_right (ilog2 a) F.emin
  omega

theorem Fmt.roundMag_zero (F : Fmt) : F.roundMag 0 = 0 := by
  unfold Fmt.roundMag
  have h0 : rne (0 : ℚ) = 0 := by simpa using rne_intCast 0
  simp [h0]

theorem Fmt.roundMag_nonneg (F : Fmt) (a : ℚ) (h : 0 ≤ a) : 0 ≤ F.roundMag a := by
  unfold Fmt.roundMag
  apply mul_nonneg _ (two_zpow_pos _).le
  have : 0 ≤ rne (a / (2 : ℚ) ^ F.ulpExp a) :=
    rne_nonneg _ (div_nonneg h (two_zpow_pos _).le)
  exact_mod_cast this

theorem Fmt.roundMag_le_grid (F : Fmt) (a : ℚ) (k : ℤ)
    (h : a ≤ (k : ℚ) * (2 : ℚ) ^ F.ulpExp a) :
    F.roundMag a ≤ (k : ℚ) * (2 : ℚ) ^ F.ulpExp a := by
  unfold Fmt.roundMag
  apply mul_le_mul_of_nonneg_right _ (two_zpow_pos _).le
  have h1 : a / (2 : ℚ) ^ F.ulpExp a ≤ (k : ℚ) := by
    rw [div_le_iff₀ (two_zpow_pos _)]; exact h
  have h2 := rne_mono _ _ h1
  rw [rne_intCast] at h2
  exact_mod_cast h2

theorem Fmt.grid_le_roundMag (F : Fmt) (a : ℚ) (k : ℤ)
    (h : (k : ℚ) * (2 : ℚ) ^ F.ulpExp a ≤ a) :
    (k : ℚ) * (2 : ℚ) ^ F.ulpExp a ≤ F.roundMag a := by
  unfold Fmt.roundMag
  apply mul_le_mul_of_nonneg_right _ (two_zpow_pos _).le
  have h1 : (k : ℚ) ≤ a / (2 : ℚ) ^ F.ulpExp a := by
    rw [le_div_iff₀ (two_zpow_pos _)]; exact h
  have h2 := rne_mono _ _ h1
  rw [rne_intCast] at h2
  exact_mod_cast h2

theorem Fmt.roundMag_grid (F : Fmt) (a : ℚ) (k : ℤ)
    (h : a = (k : ℚ) * (2 : ℚ) ^ F.ulpExp a) : F.roundMag a = a :=
  le_antisymm (by
      have := F.roundMag_le_grid a k h.le
      rw [← h] at this; exact this)
    (by
      have := F.grid_le_roundMag a k h.ge
      rw [← h] at this; exact this)

theorem two_pow_cast (n : ℕ) : (((2 : ℤ) ^ n : ℤ) : ℚ) = (2 : ℚ) ^ (n : ℤ) := by
  rw [zpow_natCast]; push_cast; rfl

/-- A magnitude rounds to at most the top of its binade. -/
theorem Fmt.roundMag_le_binade (F : Fmt) (a : ℚ) (ha : 0 < a) :
    F.roundMag a ≤ (2 : ℚ) ^ (max (ilog2 a) F.emin + 1) := by
  have h2 : (2 : ℚ) ≠ 0 := by norm_num
  have e : (2 : ℚ) ^ (max (ilog2 a) F.emin + 1)
      = (((2 : ℤ) ^ F.prec : ℤ) : ℚ) * (2 : ℚ) ^ F.ulpExp a := by
    rw [two_pow_cast, ← zpow_add₀ h2]
    congr 1
    unfold Fmt.ulpExp
    ring
  rw [e]
  apply F.roundMag_le_grid
  rw [← e]
  obtain ⟨_, s2⟩ := ilog2_spec a ha.ne'
  rw [abs_of_pos ha] at s2
  apply s2.le.trans
  apply zpow_le_zpow_right₀ (by norm_num)
  have := le_max_left (ilog2 a) F.emin
  omega

/-- A normal magnitude rounds to at least the bottom of its binade. -/
theorem Fmt.binade_le_roundMag (F : Fmt) (hp : 0 < F.prec) (a : ℚ) (ha : 0 < a)
    (hn : F.emin ≤ ilog2 a) : (2 : ℚ) ^ ilog2 a ≤ F.roundMag a := by
  have h2 : (2 : ℚ) ≠ 0 := by norm_num
  have hm : max (ilog2 a) F.emin = ilog2 a := max_eq_left hn
  have e : (2 : ℚ) ^ ilog2 a
      = (((2 : ℤ) ^ (F.prec - 1) : ℤ) : ℚ) * (2 : ℚ) ^ F.ulpExp a := by
    rw [two_pow_cast, ← zpow_add₀ h2]
    congr 1
    unfold Fmt.ulpExp
    rw [hm]
    have : ((F.prec - 1 : ℕ) : ℤ) = (F.prec : ℤ) - 1 := by omega
    rw [this]; ring
  rw [e]
  apply F.grid_le_roundMag
  rw [← e]
  obtain ⟨s1, _⟩ := ilog2_spec a ha.ne'
  rw [abs_of_pos ha] at s1
  exact s1

theorem Fmt.roundMag_mono (F : Fmt) (hp : 0 < F.prec) (a b : ℚ) (ha : 0 ≤ a) (hab : a ≤ b) :
    F.roundMag a ≤ F.roundMag b := by
  rcases eq_or_lt_of_le ha with h0 | hpos
  · rw [← h0, F.roundMag_zero]
    exact F.roundMag_nonneg b (ha.trans hab)
  have hb : 0 < b := hpos.trans_le hab
  have hE : max (ilog2 a) F.emin ≤ max (ilog2 b) F.emin :=
    max_le_max (ilog2_mono a b hpos hab) le_rfl
  rcases eq_or_lt_of_le hE with heq | hlt
  · have hu : F.ulpExp a = F.ulpExp b := by unfold Fmt.ulpExp; rw [heq]
    unfold Fmt.roundMag
    rw [hu]
    apply mul_le_mul_of_nonneg_right _ (two_zpow_pos _).le
    have : rne (a / (2 : ℚ) ^ F.ulpExp b) ≤ rne (b / (2 : ℚ) ^ F.ulpExp b) :=
      rne_mono _ _ (div_le_div_of_nonneg_right hab (two_zpow_pos _).le)
    exact_mod_cast this
  · have hn : F.emin ≤ ilog2 b := by
      by_contra hc
      push_neg at hc
      rw [max_eq_right hc.le] at hlt
      have := le_max_right (ilog2 a) F.emin
      omega
    have hm : max (ilog2 b) F.emin = ilog2 b := max_eq_left hn
    calc F.roundMag a ≤ (2 : ℚ) ^ (max (ilog2 a) F.emin + 1) := F.roundMag_le_binade a hpos
      _ ≤ (2 : ℚ) ^ ilog2 b := by
          apply zpow_le_zpow_right₀ (by norm_num)
          rw [hm] at hlt; omega
      _ ≤ F.roundMag b := F.binade_le_roundMag hp b hb hn

theorem two_zpow_split (e m : ℤ) (h : m ≤ e) :
    (2 : ℚ) ^ e = (((2 : ℤ) ^ (e - m).toNat : ℤ) : ℚ) * (2 : ℚ) ^ m := by
  rw [two_pow_cast, ← zpow_add₀ (by norm_num)]
  congr 1
  have : ((e - m).toNat : ℤ) = e - m := Int.toNat_of_nonneg (by omega)
  rw [this]; ring

/-- Every rounded magnitude is an integer multiple of the smallest subnormal. -/
theorem Fmt.roundMag_on_grid (F : Fmt) (a : ℚ) :
    ∃ K : ℤ, F.roundMag a = (K : ℚ) * (2 : ℚ) ^ F.gridExp := by
  refine ⟨rne (a / (2 : ℚ) ^ F.ulpExp a) * (2 : ℤ) ^ (F.ulpExp a - F.gridExp).toNat, ?_⟩
  unfold Fmt.roundMag
  rw [two_zpow_split (F.ulpExp a) F.gridExp (F.gridExp_le_ulpExp a)]
  push_cast
  ring

/-- A positive multiple of the smallest subnormal does not round to zero. -/
theorem Fmt.roundMag_pos (F : Fmt) (hp : 0 < F.prec) (x : ℚ) (K : ℤ) (hK : 0 < K)
    (hx : x = (K : ℚ) * (2 : ℚ) ^ F.gridExp) : 0 < F.roundMag x := by
  have hxpos : 0 < x := by
    rw [hx]; exact mul_pos (by exact_mod_cast hK) (two_zpow_pos _)
  by_cases hn : F.emin ≤ ilog2 x
  · exact lt_of_lt_of_le (two_zpow_pos _) (F.binade_le_roundMag hp x hxpos hn)
  · push_neg at hn
    have hu : F.ulpExp x = F.gridExp := by
      unfold Fmt.ulpExp Fmt.gridExp
      rw [max_eq_right hn.le]
    have h1 : ((1 : ℤ) : ℚ) * (2 : ℚ) ^ F.ulpExp x ≤ x := by
      rw [hu, hx]
      apply mul_le_mul_of_nonneg_right _ (two_zpow_pos _).le
      exact_mod_cast hK
    have := F.grid_le_roundMag x 1 h1
    refine lt_of_lt_of_le ?_ this
    simp [two_zpow_pos]

/-- Doubling commutes with rounding on multiples of the smallest subnormal. -/
theorem Fmt.roundMag_double (F : Fmt) (y : ℚ) (K : ℤ) (hy : 0 < y)
    (hK : y = (K : ℚ) * (2 : ℚ) ^ F.gridExp) : F.roundMag (2 * y) = 2 * F.roundMag y := by
  have h2 : (2 : ℚ) ≠ 0 := by norm_num
  obtain ⟨s1, s2⟩ := ilog2_spec y hy.ne'
  rw [abs_of_pos hy] at s1 s2
  have hlog : ilog2 (2 * y) = ilog2 y + 1 := by
    apply ilog2_unique
    · rw [abs_of_pos (by linarith), zpow_add_one₀ h2]; linarith
    · rw [abs_of_pos (by linarith), zpow_add_one₀ h2 (ilog2 y + 1)]; linarith
  by_cases hn : F.emin ≤ ilog2 y
  · have hu : F.ulpExp (2 * y) = F.ulpExp y + 1 := by
      unfold Fmt.ulpExp
      rw [hlog, max_eq_left hn, max_eq_left (by omega)]
      ring
    unfold Fmt.roundMag
    rw [hu, zpow_add_one₀ h2]
    have : 2 * y / ((2 : ℚ) ^ F.ulpExp y * 2) = y / (2 : ℚ) ^ F.ulpExp y := by
      field_simp; ring
    rw [this]; ring
  · push_neg at hn
    have hu1 : F.ulpExp y = F.gridExp := by
      unfold Fmt.ulpExp Fmt.gridExp
      rw [max_eq_right hn.le]
    have hu2 : F.ulpExp (2 * y) = F.gridExp := by
      unfold Fmt.ulpExp Fmt.gridExp
      rw [hlog, max_eq_right (by omega)]
    rw [F.roundMag_grid y K (by rw [hu1]; exact hK),
      F.roundMag_grid (2 * y) (2 * K) (by rw [hu2, hK]; push_cast; ring)]

/-! ## Comparisons and rounding of data -/

theorem fle_fin_fin (x y : ℚ) (z w : Bool) : fle (.fin x z) (.fin y w) = decide (x ≤ y) := by
  simp only [fle, flt, feq]
  by_cases h : x ≤ y
  · rcases lt_or_eq_of_le h with h1 | h1 <;> simp [h, h1]
  · have h1 : ¬ x < y := fun c => h c.le
    have h2 : ¬ x = y := fun c => h c.le
    simp [h, h1, h2]

theorem fle_ninf_left (w : FV) : fle (.inf true) w = !w.isNaN := by
  cases w with
  | nan => rfl
  | inf s => cases s <;> rfl
  | fin q z => rfl

theorem fle_pinf_right (w : FV) : fle w (.inf false) = !w.isNaN := by
  cases w with
  | nan => rfl
  | inf s => cases s <;> rfl
  | fin q z => rfl

theorem fle_inf_fin (s : Bool) (q : ℚ) (z : Bool) : fle (.inf s) (.fin q z) = s := by
  cases s <;> rfl

theorem fle_fin_inf (s : Bool) (q : ℚ) (z : Bool) : fle (.fin q z) (.inf s) = !s := by
  cases s <;> rfl

theorem fle_isNaN_left (a b : FV) (h : fle a b = true) : a.isNaN = false := by
  cases a with
  | nan => simp [fle, flt, feq] at h
  | inf s => rfl
  | fin q z => rfl

theorem fle_isNaN_right (a b : FV) (h : fle a b = true) : b.isNaN = false := by
  cases b with
  | nan => cases a <;> simp [fle, flt, feq] at h
  | inf s => rfl
  | fin q z => rfl

theorem fle_self (a : FV) (h : a.isNaN = false) : fle a a = true := by
  cases a with
  | nan => simp [FV.isNaN] at h
  | inf s => cases s <;> rfl
  | fin q z => simp [fle_fin_fin]

theorem Fmt.round_isNaN (F : Fmt) (q : ℚ) (z : Bool) : (F.round q z).isNaN = false := by
  unfold Fmt.round
  split_ifs <;> rfl

theorem Fmt.round_zero (F : Fmt) (z : Bool) : F.round 0 z = .fin 0 z := by
  simp [Fmt.round]

theorem Fmt.round_pos (F : Fmt) (q : ℚ) (z : Bool) (hq : 0 < q) :
    F.round q z = if F.maxFinite < F.roundMag q then .inf false else .fin (F.roundMag q) false := by
  unfold Fmt.round
  have h1 : ¬ q < 0 := not_lt.mpr hq.le
  simp [hq.ne', h1, abs_of_pos hq]

theorem Fmt.round_neg (F : Fmt) (q : ℚ) (z : Bool) (hq : q < 0) :
    F.round q z =
      if F.maxFinite < F.roundMag (-q) then .inf true else .fin (-F.roundMag (-q)) true := by
  unfold Fmt.round
  simp [hq.ne, hq, abs_of_neg hq]

theorem Fmt.round_mono (F : Fmt) (hp : 0 < F.prec) (q1 q2 : ℚ) (z1 z2 : Bool) (h : q1 ≤ q2) :
    fle (F.round q1 z1) (F.round q2 z2) = true := by
  rcases lt_trichotomy q1 0 with a | a | a <;> rcases lt_trichotomy q2 0 with b | b | b
  · have hm := F.roundMag_mono hp (-q2) (-q1) (by linarith) (by linarith)
    have n1 := F.roundMag_nonneg (-q1) (by linarith)
    rw [F.round_neg q1 z1 a, F.round_neg q2 z2 b]
    split_ifs
    all_goals simp [fle_fin_fin, fle_ninf_left, fle_pinf_right, fle_inf_fin, fle_fin_inf, FV.isNaN]
    all_goals linarith
  · have n1 := F.roundMag_nonneg (-q1) (by linarith)
    rw [F.round_neg q1 z1 a, b, F.round_zero]
    split_ifs
    all_goals simp [fle_fin_fin, fle_ninf_left, fle_pinf_right, fle_inf_fin, fle_fin_inf, FV.isNaN]
    all_goals linarith
  · have n1 := F.roundMag_nonneg (-q1) (by linarith)
    have n2 := F.roundMag_nonneg q2 (by linarith)
    rw [F.round_neg q1 z1 a, F.round_pos q2 z2 b]
    split_ifs
    all_goals simp [fle_fin_fin, fle_ninf_left, fle_pinf_right, fle_inf_fin, fle_fin_inf, FV.isNaN]
    all_goals linarith
  · exfalso; linarith
  · rw [a, b, F.round_zero, F.round_zero]; simp [fle_fin_fin]
  · have n2 := F.roundMag_nonneg q2 (by linarith)
    rw [a, F.round_zero, F.round_pos q2 z2 b]
    split_ifs
    all_goals simp [fle_fin_fin, fle_ninf_left, fle_pinf_right, fle_inf_fin, fle_fin_inf, FV.isNaN]
    all_goals linarith
  · exfalso; linarith
  · exfalso; linarith
  · have hm := F.roundMag_mono hp q1 q2 (by linarith) h
    rw [F.round_pos q1 z1 a, F.round_pos q2 z2 b]
    split_ifs
    all_goals simp [fle_fin_fin, fle_ninf_left, fle_pinf_right, fle_inf_fin, fle_fin_inf, FV.isNaN]
    all_goals linarith

theorem signBit_pos (d : ℚ) (z : Bool) (hd : 0 < d) : (FV.fin d z).signBit = false := by
  have h1 : ¬ d < 0 := not_lt.mpr hd.le
  simp [FV.signBit, hd.ne', h1]

theorem fsub_mono_left (F : Fmt) (hp : 0 < F.prec) (v1 v2 : FV) (a : ℚ) (za : Bool)
    (h : fle v1 v2 = true) : fle (fsub F v1 (.fin a za)) (fsub F v2 (.fin a za)) = true := by
  cases v1 with
  | nan => simp [fle, flt, feq] at h
  | inf s1 =>
      cases v2 with
      | nan => simp [fle, flt, feq] at h
      | inf s2 => exact h
      | fin x2 z2 =>
          rw [fle_inf_fin] at h
          subst h
          simp [fsub, fle_ninf_left, F.round_isNaN]
  | fin x1 z1 =>
      cases v2 with
      | nan => simp [fle, flt, feq] at h
      | inf s2 =>
          rw [fle_fin_inf] at h
          have : s2 = false := by simpa using h
          subst this
          simp [fsub, fle_pinf_right, F.round_isNaN]
      | fin x2 z2 =>
          rw [fle_fin_fin] at h
          have h1 : x1 ≤ x2 := by simpa using h
          simp only [fsub]
          exact F.round_mono hp _ _ _ _ (by linarith)

theorem fdiv_mono_left (F : Fmt) (hp : 0 < F.prec) (v1 v2 : FV) (d : ℚ) (zd : Bool)
    (hd : 0 < d) (h : fle v1 v2 = true) :
    fle (fdiv F v1 (.fin d zd)) (fdiv F v2 (.fin d zd)) = true := by
  have hs := signBit_pos d zd hd
  cases v1 with
  | nan => simp [fle, flt, feq] at h
  | inf s1 =>
      cases v2 with
      | nan => simp [fle, flt, feq] at h
      | inf s2 => simpa [fdiv, hs] using h
      | fin x2 z2 =>
          rw [fle_inf_fin] at h
          subst h
          simp [fdiv, hs, hd.ne', fle_ninf_left, F.round_isNaN]
  | fin x1 z1 =>
      cases v2 with
      | nan => simp [fle, flt, feq] at h
      | inf s2 =>
          rw [fle_fin_inf] at h
          have : s2 = false := by simpa using h
          subst this
          simp [fdiv, hs, hd.ne', fle_pinf_right, F.round_isNaN]
      | fin x2 z2 =>
          rw [fle_fin_fin] at h
          have h1 : x1 ≤ x2 := by simpa using h
          simp only [fdiv, hd.ne', if_false]
          exact F.round_mono hp _ _ _ _ (div_le_div_of_nonneg_right h1 hd.le)

theorem fmul_mono_left (F : Fmt) (hp : 0 < F.prec) (v1 v2 : FV) (c : ℚ) (zc : Bool)
    (hc : 0 < c) (h : fle v1 v2 = true) :
    fle (fmul F v1 (.fin c zc)) (fmul F v2 (.fin c zc)) = true := by
  have hs := signBit_pos c zc hc
  cases v1 with
  | nan => simp [fle, flt, feq] at h
  | inf s1 =>
      cases v2 with
      | nan => simp [fle, flt, feq] at h
      | inf s2 => simpa [fmul, hs, hc.ne'] using h
      | fin x2 z2 =>
          rw [fle_inf_fin] at h
          subst h
          simp [fmul, hs, hc.ne', fle_ninf_left, F.round_isNaN]
  | fin x1 z1 =>
      cases v2 with
      | nan => simp [fle, flt, feq] at h
      | inf s2 =>
          rw [fle_fin_inf] at h
          have : s2 = false := by simpa using h
          subst this
          simp [fmul, hs, hc.ne', fle_pinf_right, F.round_isNaN]
      | fin x2 z2 =>
          rw [fle_fin_fin] at h
          have h1 : x1 ≤ x2 := by simpa using h
          simp only [fmul]
          exact F.round_mono hp _ _ _ _ (mul_le_mul_of_nonneg_right h1 hc.le)

theorem fcvt_mono (F : Fmt) (hp : 0 < F.prec) (v1 v2 : FV) (h : fle v1 v2 = true) :
    fle (fcvt F v1) (fcvt F v2) = true := by
  cases v1 with
  | nan => simp [fle, flt, feq] at h
  | inf s1 =>
      cases v2 with
      | nan => simp [fle, flt, feq] at h
      | inf s2 => exact h
      | fin x2 z2 =>
          rw [fle_inf_fin] at h
          subst h
          simp [fcvt, fle_ninf_left, F.round_isNaN]
  | fin x1 z1 =>
      cases v2 with
      | nan => simp [fle, flt, feq] at h
      | inf s2 =>
          rw [fle_fin_inf] at h
          have : s2 = false := by simpa using h
          subst this
          simp [fcvt, fle_pinf_right, F.round_isNaN]
      | fin x2 z2 =>
          rw [fle_fin_fin] at h
          have h1 : x1 ≤ x2 := by simpa using h
          simp only [fcvt]
          exact F.round_mono hp _ _ _ _ h1

theorem constrain_mono (v1 v2 : FV) (l u : ℚ) (zl zu : Bool) (hlu : l ≤ u)
    (h : fle v1 v2 = true) :
    fle (constrain v1 (.fin l zl) (.fin u zu)) (constrain v2 (.fin l zl) (.fin u zu)) = true := by
  cases v1 with
  | nan => simp [fle, flt, feq] at h
  | inf s1 =>
      cases v2 with
      | nan => simp [fle, flt, feq] at h
      | inf s2 =>
          cases s1 <;> cases s2 <;> simp [fle, flt, feq] at h <;>
            simp [constrain, fgt, flt, fle_fin_fin, hlu]
      | fin x2 z2 =>
          rw [fle_inf_fin] at h
          subst h
          simp only [constrain, fgt, flt]
          split_ifs <;> simp_all [fle_fin_fin]
  | fin x1 z1 =>
      cases v2 with
      | nan => simp [fle, flt, feq] at h
      | inf s2 =>
          rw [fle_fin_inf] at h
          have : s2 = false := by simpa using h
          subst this
          simp only [constrain, fgt, flt]
          split_ifs <;> simp_all [fle_fin_fin]
      | fin x2 z2 =>
          rw [fle_fin_fin] at h
          have h1 : x1 ≤ x2 := by simpa using h
          simp only [constrain, fgt, flt]
          split_ifs <;> simp_all [fle_fin_fin] <;> linarith

theorem constrain_range (v : FV) (l u : ℚ) (zl zu : Bool) (hlu : l ≤ u)
    (h : v.isNaN = false) :
    fle (.fin l zl) (constrain v (.fin l zl) (.fin u zu)) = true ∧
      fle (constrain v (.fin l zl) (.fin u zu)) (.fin u zu) = true := by
  cases v with
  | nan => simp [FV.isNaN] at h
  | inf s => cases s <;> simp [constrain, fgt, flt, fle_fin_fin, hlu]
  | fin x z =>
      simp only [constrain, fgt, flt]
      split_ifs <;> simp_all [fle_fin_fin]

/-! ## The percentage computation -/

theorem binary32_prec : 0 < binary32.prec := by decide

theorem binary64_prec : 0 < binary64.prec := by decide

theorem isF32_grid (q : ℚ) (z : Bool) (h : (FV.fin q z).IsF32) :
    ∃ K : ℤ, q = (K : ℚ) * (2 : ℚ) ^ binary32.gridExp := by
  change binary32.round q false = .fin q (decide (q < 0)) at h
  rcases lt_trichotomy q 0 with a | a | a
  · rw [binary32.round_neg q false a] at h
    split_ifs at h
    obtain ⟨K, hK⟩ := binary32.roundMag_on_grid (-q)
    have e : -binary32.roundMag (-q) = q := (FV.fin.inj h).1
    refine ⟨-K, ?_⟩
    rw [← e, hK]; push_cast; ring
  · exact ⟨0, by simp [a]⟩
  · rw [binary32.round_pos q false a] at h
    split_ifs at h
    obtain ⟨K, hK⟩ := binary32.roundMag_on_grid q
    have e : binary32.roundMag q = q := (FV.fin.inj h).1
    exact ⟨K, by rw [← hK, e]⟩

/-- The difference of two floats `a < b` is a positive multiple of the smallest subnormal. -/
theorem isF32_sub_grid (a b : ℚ) (za zb : Bool) (ha : (FV.fin a za).IsF32)
    (hb : (FV.fin b zb).IsF32) (hab : a < b) :
    ∃ K : ℤ, 0 < K ∧ b - a = (K : ℚ) * (2 : ℚ) ^ binary32.gridExp := by
  obtain ⟨Ka, hKa⟩ := isF32_grid a za ha
  obtain ⟨Kb, hKb⟩ := isF32_grid b zb hb
  have e : b - a = ((Kb - Ka : ℤ) : ℚ) * (2 : ℚ) ^ binary32.gridExp := by
    rw [hKa, hKb]; push_cast; ring
  refine ⟨Kb - Ka, ?_, e⟩
  have hpos : (0 : ℚ) < ((Kb - Ka : ℤ) : ℚ) * (2 : ℚ) ^ binary32.gridExp := by
    rw [← e]; linarith
  have := (mul_pos_iff_of_pos_right (two_zpow_pos binary32.gridExp)).mp hpos
  exact_mod_cast this

/-- Shape of a configuration `minV < maxV` of floats with a finite span: both bounds are
finite and the divisor `maxVoltage - minVoltage` is a positive finite float. -/
theorem config_span (minV maxV : FV) (hmin : minV.IsF32) (hmax : maxV.IsF32)
    (hlt : flt minV maxV = true) (hfin : (fsub binary32 maxV minV).isFinite = true) :
    ∃ a za b zb d zd, minV = .fin a za ∧ maxV = .fin b zb ∧ a < b ∧
      fsub binary32 maxV minV = .fin d zd ∧ 0 < d ∧ d = binary32.roundMag (b - a) ∧
      d ≤ binary32.maxFinite := by
  cases minV with
  | nan => simp [flt] at hlt
  | inf s1 =>
      cases maxV with
      | nan => simp [flt] at hlt
      | inf s2 =>
          cases s1 <;> cases s2 <;> simp [flt] at hlt
          simp [fsub, FV.isFinite] at hfin
      | fin b zb => simp [fsub, FV.isFinite] at hfin
  | fin a za =>
      cases maxV with
      | nan => simp [flt] at hlt
      | inf s2 => simp [fsub, FV.isFinite] at hfin
      | fin b zb =>
          have hab : a < b := by simpa [flt] using hlt
          obtain ⟨K, hK, hg⟩ := isF32_sub_grid a b za zb hmin hmax hab
          have hpos := binary32.roundMag_pos binary32_prec (b - a) K hK hg
          have hr := binary32.round_pos (b - a)
            ((FV.fin b zb).signBit && !(FV.fin a za).signBit) (by linarith)
          simp only [fsub] at hfin ⊢
          rw [hr] at hfin ⊢
          split_ifs at hfin ⊢ with ho
          · simp [FV.isFinite] at hfin
          · exact ⟨a, za, b, zb, _, false, rfl, rfl, hab, rfl, hpos, rfl, not_lt.mp ho⟩

theorem percentage_eq (v minV maxV : FV) :
    Sensor_INA219.percentage v minV maxV =
      percentageOfQuot (fdiv binary32 (fsub binary32 v minV) (fsub binary32 maxV minV)) := rfl

theorem dlit_zero : dlit 0 = .fin 0 false := by decide!

theorem dlit_hundred : dlit 100 = .fin 100 false := by decide!

theorem percentageOfQuot_mono (q1 q2 : FV) (h : fle q1 q2 = true) :
    fle (percentageOfQuot q1) (percentageOfQuot q2) = true := by
  unfold percentageOfQuot
  rw [dlit_zero, dlit_hundred]
  exact fcvt_mono _ binary32_prec _ _
    (constrain_mono _ _ _ _ _ _ (by norm_num)
      (fcvt_mono _ binary32_prec _ _
        (fmul_mono_left _ binary64_prec _ _ _ _ (by norm_num) h)))

theorem percentageOfQuot_range (q : FV) (h : q.isNaN = false) :
    fle (.fin 0 false) (percentageOfQuot q) = true ∧
      fle (percentageOfQuot q) (.fin 100 false) = true := by
  have hq := fle_self q h
  have h1 := fcvt_mono _ binary32_prec _ _
    (fmul_mono_left binary64 binary64_prec _ _ 100 false (by norm_num) hq)
  have h2 := constrain_range _ 0 100 false false (by norm_num) (fle_isNaN_left _ _ h1)
  have e0 : fcvt binary32 (.fin 0 false) = .fin 0 false := by decide!
  have e1 : fcvt binary32 (.fin 100 false) = .fin 100 false := by decide!
  unfold percentageOfQuot
  rw [dlit_zero, dlit_hundred]
  constructor
  · have := fcvt_mono _ binary32_prec _ _ h2.1
    rwa [e0] at this
  · have := fcvt_mono _ binary32_prec _ _ h2.2
    rwa [e1] at this

theorem percentageOfQuot_zero (z : Bool) : (percentageOfQuot (.fin 0 z)).isZero = true := by
  cases z <;> decide!

theorem percentageOfQuot_one : percentageOfQuot (.fin 1 false) = .fin 100 false := by decide!

theorem percentageOfQuot_half : percentageOfQuot (.fin (1 / 2) false) = .fin 50 false := by
  decide!

theorem quot_mono (v1 v2 : FV) (a d : ℚ) (za zd : Bool) (hd : 0 < d) (h : fle v1 v2 = true) :
    fle (fdiv binary32 (fsub binary32 v1 (.fin a za)) (.fin d zd))
      (fdiv binary32 (fsub binary32 v2 (.fin a za)) (.fin d zd)) = true :=
  fdiv_mono_left _ binary32_prec _ _ _ _ hd (fsub_mono_left _ binary32_prec _ _ _ _ h)

theorem percentage_mono (v1 v2 minV maxV : FV) (hmin : minV.IsF32) (hmax : maxV.IsF32)
    (hlt : flt minV maxV = true) (hfin : (fsub binary32 maxV minV).isFinite = true)
    (h : fle v1 v2 = true) :
    fle (Sensor_INA219.percentage v1 minV maxV) (Sensor_INA219.percentage v2 minV maxV)
      = true := by
  obtain ⟨a, za, b, zb, d, zd, e1, e2, hab, hs, hd, _, _⟩ :=
    config_span minV maxV hmin hmax hlt hfin
  rw [percentage_eq, percentage_eq, hs, e1]
  exact percentageOfQuot_mono _ _ (quot_mono _ _ _ _ _ _ hd h)

theorem feq_of_fle_fle (p : FV) (c : ℚ) (z1 z2 z3 : Bool) (h1 : fle p (.fin c z1) = true)
    (h2 : fle (.fin c z2) p = true) : feq p (.fin c z3) = true := by
  cases p with
  | nan => simp [fle, flt, feq] at h1
  | inf s =>
      rw [fle_inf_fin] at h1
      rw [fle_fin_inf] at h2
      subst h1
      simp at h2
  | fin q z =>
      rw [fle_fin_fin] at h1 h2
      have a1 : q ≤ c := by simpa using h1
      have a2 : c ≤ q := by simpa using h2
      simp [feq, le_antisymm a1 a2]

theorem flit_zero : flit 0 = .fin 0 false := by decide!

theorem flit_fifty : flit 50 = .fin 50 false := by decide!

theorem flit_hundred : flit 100 = .fin 100 false := by decide!

theorem isZero_iff (v : FV) : v.isZero = true ↔ ∃ z, v = .fin 0 z := by
  cases v <;> simp [FV.isZero]

theorem round32_one (z : Bool) : binary32.round 1 z = .fin 1 false := by
  cases z <;> decide!

theorem round32_half (z : Bool) : binary32.round (1 / 2) z = .fin (1 / 2) false := by
  cases z <;> decide!

/-- The quotient is exactly one half when the voltage is the midpoint of the two bounds. -/
theorem quot_midpoint (x a b : ℚ) (zx za : Bool) (d : ℚ) (zd : Bool)
    (hx : (FV.fin x zx).IsF32) (ha : (FV.fin a za).IsF32) (hab : a < b)
    (hmid : x = (a + b) / 2) (hd : d = binary32.roundMag (b - a))
    (hmax : d ≤ binary32.maxFinite) :
    fdiv binary32 (fsub binary32 (.fin x zx) (.fin a za)) (.fin d zd) = .fin (1 / 2) false := by
  have hax : a < x := by rw [hmid]; linarith
  obtain ⟨K, hK, hg⟩ := isF32_sub_grid a x za zx ha hx hax
  have hy : 0 < x - a := by linarith
  have hdbl := binary32.roundMag_double (x - a) K hy hg
  have hba : b - a = 2 * (x - a) := by rw [hmid]; ring
  have hpos := binary32.roundMag_pos binary32_prec (x - a) K hK hg
  have hd2 : d = 2 * binary32.roundMag (x - a) := by rw [hd, hba, hdbl]
  have hno : ¬ binary32.maxFinite < binary32.roundMag (x - a) := by
    rw [not_lt]; linarith
  have hdne : d ≠ 0 := by rw [hd2]; linarith
  have hq : binary32.roundMag (x - a) / d = 1 / 2 := by
    rw [hd2]; field_simp; ring
  simp only [fsub]
  rw [binary32.round_pos (x - a) _ hy, if_neg hno]
  simp only [fdiv, hdne, if_false]
  rw [hq, round32_half]

/-! ## Basic facts about literals and comparisons -/

theorem dlit_eighty : dlit 80 = .fin 80 false := by decide!

theorem feq_zero (v : FV) (z : Bool) : feq v (.fin 0 z) = v.isZero := by
  cases v <;> simp [feq, FV.isZero]

theorem sht_validate_eq (temp humy : FV) :
    Sensor_SHT_Validated.validate temp humy = !(temp.isZero && humy.isZero) := by
  simp only [Sensor_SHT_Validated.validate, flit_zero, feq_zero]
  cases temp.isZero <;> cases humy.isZero <;> rfl

/-! ## Claims about Sensor_SHT_Validated -/

/-- C1: `validate(temp, humy)` returns false if and only if both fields are a zero (of either
sign); every other pair is accepted, whatever the single fields are: `(0.0, 5.0)` is accepted,
`(0.0, 0.0)` and `(-0.0, 0.0)` are rejected, and NaN or an infinity in a field is accepted. -/
theorem sht_validate_rejects_iff_both_zero :
    (∀ temp humy : FV, Sensor_SHT_Validated.validate temp humy = false ↔
        (∃ z, temp = .fin 0 z) ∧ (∃ w, humy = .fin 0 w)) ∧
      Sensor_SHT_Validated.validate (flit 0) (flit 5) = true ∧
      Sensor_SHT_Validated.validate (flit 0) (flit 0) = false ∧
      Sensor_SHT_Validated.validate (.fin 0 true) (flit 0) = false ∧
      Sensor_SHT_Validated.validate .nan (flit 0) = true ∧
      Sensor_SHT_Validated.validate (flit 0) (.inf false) = true := by
  refine ⟨?_, by decide!, by decide!, by decide!, by decide!, by decide!⟩
  intro temp humy
  rw [sht_validate_eq, ← isZero_iff, ← isZero_iff]
  cases temp.isZero <;> cases humy.isZero <;> simp

/-- C3: in one cycle the two channels are written together, with the pair just read, exactly
when the device reported data ready, the read succeeded and the pair is not (zero, zero)
(that is, `validate` accepted it); otherwise both channels are left as they were. -/
theorem sht_cycle_writes_both_or_neither (s : Sensor_SHT_Validated) (r : SHT_Reply) :
    (Sensor_SHT_Validated.validate r.getTemperature r.getHumidity =
        !(r.getTemperature.isZero && r.getHumidity.isZero)) ∧
      ((s.readValidateConvertSet r).temperature, (s.readValidateConvertSet r).humidity) =
        if r.dataReady = true ∧ r.readData = true ∧
            Sensor_SHT_Validated.validate r.getTemperature r.getHumidity = true
        then (s.temperature.set r.getTemperature, s.humidity.set r.getHumidity)
        else (s.temperature, s.humidity) := by
  refine ⟨sht_validate_eq _ _, ?_⟩
  unfold Sensor_SHT_Validated.readValidateConvertSet
  cases hd : r.dataReady <;> cases hr : r.readData <;>
    cases hv : Sensor_SHT_Validated.validate r.getTemperature r.getHumidity <;>
    simp [Sensor_SHT_Validated.set, hd, hr, hv]

/-- C9, as stated, fails: a sensor that is not Ready (no `setup()`, or `begin()` failed) still
writes both channels when the device reports data ready and a successful read of
(21.5, 44.0). -/
theorem sht_not_ready_still_writes :
    ¬ shtFresh.Ready ∧ ¬ (shtFresh.setup false).Ready ∧
      (shtFresh.readValidateConvertSet shtGoodReply).temperature.written = [flit (43 / 2)] ∧
      (shtFresh.readValidateConvertSet shtGoodReply).humidity.written = [flit 44] ∧
      shtFresh.temperature.written = [] ∧ shtFresh.humidity.written = [] ∧
      ((shtFresh.setup false).readValidateConvertSet shtGoodReply).temperature.written
        = [flit (43 / 2)] ∧
      ((shtFresh.setup false).readValidateConvertSet shtGoodReply).humidity.written
        = [flit 44] := by
  decide!

/-- C9, amended: the sensor keeps no readiness state of its own; for every sensor, Ready or
not, a cycle writes neither channel when the device reports data not ready, when the read
fails, or when the pair read is (zero, zero); in the first two cases the cycle changes nothing
at all (no new request either). -/
theorem sht_cycle_no_write_when_gated (s : Sensor_SHT_Validated) (r : SHT_Reply)
    (h : r.dataReady = false ∨ r.readData = false ∨
      (r.getTemperature.isZero = true ∧ r.getHumidity.isZero = true)) :
    (s.readValidateConvertSet r).temperature = s.temperature ∧
      (s.readValidateConvertSet r).humidity = s.humidity ∧
      ((r.dataReady = false ∨ r.readData = false) → s.readValidateConvertSet r = s) := by
  unfold Sensor_SHT_Validated.readValidateConvertSet
  refine ⟨?_, ?_, ?_⟩
  · rcases h with h | h | ⟨h1, h2⟩
    · simp [h]
    · simp [h]
    · cases hd : r.dataReady <;> cases hr : r.readData <;>
        simp [sht_validate_eq, h1, h2]
  · rcases h with h | h | ⟨h1, h2⟩
    · simp [h]
    · simp [h]
    · cases hd : r.dataReady <;> cases hr : r.readData <;>
        simp [sht_validate_eq, h1, h2]
  · intro h3
    rcases h3 with h3 | h3 <;> simp [h3]

theorem sht_cycle_no_write_when_gated_witness :
    ¬ shtFresh.Ready ∧
      (shtFresh.readValidateConvertSet ⟨true, true, flit 0, .fin 0 true⟩).temperature
        = shtFresh.temperature ∧
      (shtFresh.readValidateConvertSet ⟨true, true, flit 0, .fin 0 true⟩).humidity
        = shtFresh.humidity ∧
      shtFresh.readValidateConvertSet ⟨false, true, flit (43 / 2), flit 44⟩ = shtFresh :=
  ⟨by decide,
    (sht_cycle_no_write_when_gated shtFresh ⟨true, true, flit 0, .fin 0 true⟩
      (Or.inr (Or.inr ⟨by decide!, by decide!⟩))).1,
    (sht_cycle_no_write_when_gated shtFresh ⟨true, true, flit 0, .fin 0 true⟩
      (Or.inr (Or.inr ⟨by decide!, by decide!⟩))).2.1,
    (sht_cycle_no_write_when_gated shtFresh ⟨false, true, flit (43 / 2), flit 44⟩
      (Or.inl rfl)).2.2 (Or.inl rfl)⟩

/-- C10: a cycle issues one new `requestData()` exactly when the device reported data ready
and the read succeeded, whatever the pair read (accepted or rejected); otherwise it issues
none. -/
theorem sht_cycle_requests (s : Sensor_SHT_Validated) (r : SHT_Reply) :
    (s.readValidateConvertSet r).sht.requests =
      s.sht.requests + (if r.dataReady = true ∧ r.readData = true then 1 else 0) := by
  unfold Sensor_SHT_Validated.readValidateConvertSet
  cases hd : r.dataReady <;> cases hr : r.readData <;>
    cases hv : Sensor_SHT_Validated.validate r.getTemperature r.getHumidity <;>
    simp [Sensor_SHT_Validated.set, SHT_Device.requestData, hd, hr, hv]

/-! ## Claim about Sensor_DS18B20_Validated -/

/-- C6: the single-value validator rejects exactly NaN and the readings `>= 80.0` (so also
`+∞`), and accepts every other reading: a finite reading is accepted exactly when it is below
80.0; `79.999f` is accepted, `80.0f` and the power-on value `85.0f` are rejected. -/
theorem ds18b20_validate_threshold :
    (∀ r : FV, Sensor_DS18B20_Validated.validate r = false ↔
        (r = .nan ∨ r = .inf false ∨ ∃ q z, r = .fin q z ∧ 80 ≤ q)) ∧
      (∀ q z, Sensor_DS18B20_Validated.validate (.fin q z) = decide (q < 80)) ∧
      Sensor_DS18B20_Validated.validate (flit (79999 / 1000)) = true ∧
      Sensor_DS18B20_Validated.validate (flit 80) = false ∧
      Sensor_DS18B20_Validated.validate (flit 85) = false := by
  refine ⟨?_, ?_, by decide!, by decide!, by decide!⟩
  · intro r
    cases r with
    | nan => simp [Sensor_DS18B20_Validated.validate, FV.isNaN]
    | inf s =>
        cases s <;>
          simp [Sensor_DS18B20_Validated.validate, FV.isNaN, fge, fle, flt, feq, dlit_eighty]
    | fin q z =>
        simp only [Sensor_DS18B20_Validated.validate, FV.isNaN, fge, dlit_eighty, fle_fin_fin]
        simp
  · intro q z
    simp only [Sensor_DS18B20_Validated.validate, FV.isNaN, fge, dlit_eighty, fle_fin_fin]
    by_cases h : q < 80
    · have h1 : ¬ 80 ≤ q := not_le.mpr h
      simp [h, h1]
    · have h1 : 80 ≤ q := not_lt.mp h
      simp [h, h1]

/-! ## Claims about the state of Sensor_INA219 -/

/-- C4: a sensor that is not initialized is left unchanged by `readValidateConvertSet`,
whatever the device would return, so none of the three channels is written; a sensor is not
initialized after construction and after a `setup()` whose probe failed. -/
theorem ina219_not_initialized_no_write (s : Sensor_INA219) (h : s.initialized = false)
    (busVoltage_V current_mA : FV) (id name : String) (maxV minV : FV) (retain : Bool) :
    s.readValidateConvertSet busVoltage_V current_mA = s ∧
      (Sensor_INA219.new id name maxV minV retain).initialized = false ∧
      (s.setup false).initialized = false ∧
      ((s.setup false).readValidateConvertSet busVoltage_V current_mA).out_voltage
        = s.out_voltage ∧
      ((s.setup false).readValidateConvertSet busVoltage_V current_mA).out_current
        = s.out_current ∧
      ((s.setup false).readValidateConvertSet busVoltage_V current_mA).out_percentage
        = s.out_percentage := by
  refine ⟨?_, rfl, ?_, ?_, ?_, ?_⟩
  · simp [Sensor_INA219.readValidateConvertSet, h]
  all_goals simp [Sensor_INA219.setup, Sensor_INA219.readValidateConvertSet]

theorem ina219_not_initialized_no_write_witness :
    battery.initialized = false ∧
      battery.readValidateConvertSet (flit (18 / 5)) (flit 120) = battery ∧
      (battery.setup false).readValidateConvertSet (flit (18 / 5)) (flit 120)
        = battery.setup false :=
  ⟨rfl,
    (ina219_not_initialized_no_write battery rfl (flit (18 / 5)) (flit 120)
      "battery" "Battery Monitor" (flit (21 / 5)) (flit 3) true).1,
    (ina219_not_initialized_no_write (battery.setup false) rfl (flit (18 / 5)) (flit 120)
      "battery" "Battery Monitor" (flit (21 / 5)) (flit 3) true).1⟩

/-- C7, as stated, fails: `setup()` probes again on every call, so a second call with a
different probe outcome changes the state (Ready to Failed, and Failed to Ready). -/
theorem ina219_setup_again_changes_state :
    (battery.setup true).initialized = true ∧
      ((battery.setup true).setup false).initialized = false ∧
      (battery.setup false).initialized = false ∧
      ((battery.setup false).setup true).initialized = true := by
  decide

/-- C7, amended: after `setup()` the initialization state is the outcome of the latest
probe; a second `setup()` leaves the sensor unchanged when its probe has the same outcome as
the first, and it never touches the channels, their registration or the voltage bounds. -/
theorem ina219_setup_again (s : Sensor_INA219) (b1 b2 : Bool) :
    ((s.setup b1).setup b2).initialized = b2 ∧
      (s.setup b1).setup b2 = s.setup b2 ∧
      (s.setup b1).setup b1 = s.setup b1 ∧
      (s.setup b1).outputs = s.outputs ∧
      (s.setup b1).out_voltage = s.out_voltage ∧
      (s.setup b1).out_current = s.out_current ∧
      (s.setup b1).out_percentage = s.out_percentage ∧
      (s.setup b1).minVoltage = s.minVoltage ∧
      (s.setup b1).maxVoltage = s.maxVoltage := by
  cases b1 <;> cases b2 <;> simp [Sensor_INA219.setup]

/-! ## Claims about the battery percentage and the constructor -/

/-- C2, as stated, fails: with a NaN voltage the percentage is NaN and lies outside
[0, 100]; and in the configuration `minVoltage = -FLT_MAX`, `maxVoltage = FLT_MAX`, whose
span overflows, the percentage at `v = maxVoltage` is NaN instead of 100 and the percentage
at the midpoint `v = 0` is 0 instead of 50. -/
theorem ina219_percentage_nan_and_overflow :
    flt (flit 3) (flit (21 / 5)) = true ∧
      Sensor_INA219.percentage .nan (flit 3) (flit (21 / 5)) = .nan ∧
      fle (flit 0) (Sensor_INA219.percentage .nan (flit 3) (flit (21 / 5))) = false ∧
      fle (Sensor_INA219.percentage .nan (flit 3) (flit (21 / 5))) (flit 100) = false ∧
      flt fltLowest fltMax = true ∧ fge fltMax fltMax = true ∧
      Sensor_INA219.percentage fltMax fltLowest fltMax = .nan ∧
      Sensor_INA219.percentage (flit 0) fltLowest fltMax = .fin 0 false := by
  decide!

/-- C2, amended: for float bounds `minVoltage < maxVoltage` whose span
`maxVoltage - minVoltage` is finite in `float` arithmetic, and every float voltage `v` that is
not NaN, the percentage lies in [0, 100], equals 0 when `v <= minVoltage`, equals 100 when
`v >= maxVoltage`, and equals 50 when `v` is exactly the midpoint of the two bounds; with
`minVoltage = 3.0`, `maxVoltage = 4.2`, `v = 3.6` it is 50. -/
theorem ina219_percentage_clamped (v minV maxV : FV)
    (hv32 : v.IsF32) (hmin : minV.IsF32) (hmax : maxV.IsF32)
    (hlt : flt minV maxV = true)
    (hfin : (fsub binary32 maxV minV).isFinite = true)
    (hv : v.isNaN = false) :
    fle (flit 0) (Sensor_INA219.percentage v minV maxV) = true ∧
      fle (Sensor_INA219.percentage v minV maxV) (flit 100) = true ∧
      (fle v minV = true → feq (Sensor_INA219.percentage v minV maxV) (flit 0) = true) ∧
      (fge v maxV = true → feq (Sensor_INA219.percentage v minV maxV) (flit 100) = true) ∧
      (∀ x a b zx za zb, v = .fin x zx → minV = .fin a za → maxV = .fin b zb →
        x = (a + b) / 2 → Sensor_INA219.percentage v minV maxV = flit 50) ∧
      Sensor_INA219.percentage (flit (18 / 5)) (flit 3) (flit (21 / 5)) = flit 50 := by
  obtain ⟨a, za, b, zb, d, zd, e1, e2, hab, hs, hd, hdr, hdm⟩ :=
    config_span minV maxV hmin hmax hlt hfin
  subst e1 e2
  have hq := quot_mono v v a d za zd hd (fle_self v hv)
  have hrange := percentageOfQuot_range _ (fle_isNaN_left _ _ hq)
  rw [percentage_eq, hs, flit_zero, flit_hundred, flit_fifty]
  refine ⟨hrange.1, hrange.2, ?_, ?_, ?_, by decide!⟩
  · intro hle
    have h1 := percentageOfQuot_mono _ _ (quot_mono v (.fin a za) a d za zd hd hle)
    have e : fdiv binary32 (fsub binary32 (.fin a za) (.fin a za)) (.fin d zd)
        = .fin 0 (xor ((FV.fin a za).signBit && !(FV.fin a za).signBit) (FV.fin d zd).signBit) := by
      simp [fsub, fdiv, Fmt.round_zero, hd.ne', FV.signBit]
    rw [e] at h1
    obtain ⟨w, hw⟩ := (isZero_iff _).mp (percentageOfQuot_zero
      (xor ((FV.fin a za).signBit && !(FV.fin a za).signBit) (FV.fin d zd).signBit))
    rw [hw] at h1
    exact feq_of_fle_fle _ 0 w false false h1 hrange.1
  · intro hge
    have hge2 : fle (.fin b zb) v = true := hge
    have h1 := percentageOfQuot_mono _ _ (quot_mono (.fin b zb) v a d za zd hd hge2)
    have e : fdiv binary32 (fsub binary32 (.fin b zb) (.fin a za)) (.fin d zd)
        = .fin 1 false := by
      rw [hs]
      simp only [fdiv, hd.ne', if_false]
      rw [div_self hd.ne', round32_one]
    rw [e, percentageOfQuot_one] at h1
    exact feq_of_fle_fle _ 100 false false false hrange.2 h1
  · intro x a2 b2 zx za2 zb2 ex ea eb hmid
    obtain ⟨ea1, ea2⟩ := FV.fin.inj ea
    obtain ⟨eb1, eb2⟩ := FV.fin.inj eb
    subst ea1 ea2 eb1 eb2 ex
    rw [quot_midpoint x a b zx za d zd hv32 hmin hab hmid hdr hdm, percentageOfQuot_half]

theorem ina219_percentage_clamped_witness :
    (flit 3).IsF32 ∧ (flit (21 / 5)).IsF32 ∧ flt (flit 3) (flit (21 / 5)) = true ∧
      (fsub binary32 (flit (21 / 5)) (flit 3)).isFinite = true ∧
      fle (flit 0) (Sensor_INA219.percentage (flit (33 / 10)) (flit 3) (flit (21 / 5))) = true ∧
      fle (Sensor_INA219.percentage (flit (33 / 10)) (flit 3) (flit (21 / 5))) (flit 100)
        = true ∧
      feq (Sensor_INA219.percentage (flit (5 / 2)) (flit 3) (flit (21 / 5))) (flit 0) = true ∧
      feq (Sensor_INA219.percentage (flit 5) (flit 3) (flit (21 / 5))) (flit 100) = true ∧
      Sensor_INA219.percentage (flit (18 / 5)) (flit 3) (flit (21 / 5)) = flit 50 :=
  ⟨by decide!, by decide!, by decide!, by decide!,
    (ina219_percentage_clamped (flit (33 / 10)) (flit 3) (flit (21 / 5))
      (by decide!) (by decide!) (by decide!) (by decide!) (by decide!) (by decide!)).1,
    (ina219_percentage_clamped (flit (33 / 10)) (flit 3) (flit (21 / 5))
      (by decide!) (by decide!) (by decide!) (by decide!) (by decide!) (by decide!)).2.1,
    (ina219_percentage_clamped (flit (5 / 2)) (flit 3) (flit (21 / 5))
      (by decide!) (by decide!) (by decide!) (by decide!) (by decide!) (by decide!)).2.2.1
      (by decide!),
    (ina219_percentage_clamped (flit 5) (flit 3) (flit (21 / 5))
      (by decide!) (by decide!) (by decide!) (by decide!) (by decide!) (by decide!)).2.2.2.1
      (by decide!),
    (ina219_percentage_clamped (flit (18 / 5)) (flit 3) (flit (21 / 5))
      (by decide!) (by decide!) (by decide!) (by decide!) (by decide!) (by decide!)).2.2.2.2.1
      (7549747 / 2097152) 3 (4404019 / 1048576) false false false
      (by decide!) (by decide!) (by decide!) (by norm_num)⟩

/-- C5, as stated, fails: in the configuration `minVoltage = -FLT_MAX`,
`maxVoltage = FLT_MAX` (so `minVoltage < maxVoltage`) the span overflows; the percentage is 0
at `v1 = 0` and NaN at `v2 = FLT_MAX`, so `v1 <= v2` but not
`percentage(v1) <= percentage(v2)`. -/
theorem ina219_percentage_not_monotone_on_overflow :
    flt fltLowest fltMax = true ∧ fle (flit 0) fltMax = true ∧
      fle (Sensor_INA219.percentage (flit 0) fltLowest fltMax)
        (Sensor_INA219.percentage fltMax fltLowest fltMax) = false := by
  decide!

/-- C5, amended: for float bounds `minVoltage < maxVoltage` whose span
`maxVoltage - minVoltage` is finite in `float` arithmetic, the percentage is monotonic
non-decreasing in the voltage: `v1 <= v2` gives `percentage(v1) <= percentage(v2)`. -/
theorem ina219_percentage_monotone (v1 v2 minV maxV : FV)
    (hmin : minV.IsF32) (hmax : maxV.IsF32) (hlt : flt minV maxV = true)
    (hfin : (fsub binary32 maxV minV).isFinite = true) (h : fle v1 v2 = true) :
    fle (Sensor_INA219.percentage v1 minV maxV) (Sensor_INA219.percentage v2 minV maxV)
      = true :=
  percentage_mono v1 v2 minV maxV hmin hmax hlt hfin h

theorem ina219_percentage_monotone_witness :
    (flit 3).IsF32 ∧ (flit (21 / 5)).IsF32 ∧ flt (flit 3) (flit (21 / 5)) = true ∧
      (fsub binary32 (flit (21 / 5)) (flit 3)).isFinite = true ∧
      fle (flit (33 / 10)) (flit (18 / 5)) = true ∧
      fle (Sensor_INA219.percentage (flit (33 / 10)) (flit 3) (flit (21 / 5)))
        (Sensor_INA219.percentage (flit (18 / 5)) (flit 3) (flit (21 / 5))) = true :=
  ⟨by decide!, by decide!, by decide!, by decide!, by decide!,
    ina219_percentage_monotone (flit (33 / 10)) (flit (18 / 5)) (flit 3) (flit (21 / 5))
      (by decide!) (by decide!) (by decide!) (by decide!) (by decide!)⟩

/-- C8, as stated, fails: the constructor accepts `maxV = 3.0`, `minV = 4.2` and the divisor
of the percentage is then negative; it accepts `maxV = minV = 3.0` and the divisor is then
zero. -/
theorem ina219_constructor_accepts_bad_bounds :
    flt (Sensor_INA219.new "battery" "Battery Monitor" (flit 3) (flit (21 / 5)) true).minVoltage
        (Sensor_INA219.new "battery" "Battery Monitor" (flit 3) (flit (21 / 5)) true).maxVoltage
        = false ∧
      flt (fsub binary32
          (Sensor_INA219.new "battery" "Battery Monitor" (flit 3) (flit (21 / 5)) true).maxVoltage
          (Sensor_INA219.new "battery" "Battery Monitor" (flit 3) (flit (21 / 5)) true).minVoltage)
        (flit 0) = true ∧
      feq (fsub binary32
          (Sensor_INA219.new "battery" "Battery Monitor" (flit 3) (flit 3) true).maxVoltage
          (Sensor_INA219.new "battery" "Battery Monitor" (flit 3) (flit 3) true).minVoltage)
        (flit 0) = true := by
  decide!

/-- C8, amended: the constructor checks nothing; it stores `maxV` and `minV` as given and
leaves the sensor not initialized.  When the two values given are floats with
`minV < maxV`, the divisor `maxVoltage - minVoltage` of the percentage is strictly
positive. -/
theorem ina219_constructor_divisor_positive (id name : String) (maxV minV : FV) (retain : Bool)
    (hmin : minV.IsF32) (hmax : maxV.IsF32) (hlt : flt minV maxV = true) :
    (Sensor_INA219.new id name maxV minV retain).maxVoltage = maxV ∧
      (Sensor_INA219.new id name maxV minV retain).minVoltage = minV ∧
      (Sensor_INA219.new id name maxV minV retain).initialized = false ∧
      flt (flit 0) (fsub binary32 (Sensor_INA219.new id name maxV minV retain).maxVoltage
        (Sensor_INA219.new id name maxV minV retain).minVoltage) = true := by
  refine ⟨rfl, rfl, rfl, ?_⟩
  change flt (flit 0) (fsub binary32 maxV minV) = true
  rw [flit_zero]
  cases minV with
  | nan => simp [flt] at hlt
  | inf s1 =>
      cases maxV with
      | nan => simp [flt] at hlt
      | inf s2 =>
          cases s1 <;> cases s2 <;> simp [flt] at hlt
          simp [fsub, flt]
      | fin b zb =>
          have : s1 = true := by simpa [flt] using hlt
          subst this
          simp [fsub, flt]
  | fin a za =>
      cases maxV with
      | nan => simp [flt] at hlt
      | inf s2 =>
          have : s2 = false := by simpa [flt] using hlt
          subst this
          simp [fsub, flt]
      | fin b zb =>
          have hab : a < b := by simpa [flt] using hlt
          obtain ⟨K, hK, hg⟩ := isF32_sub_grid a b za zb hmin hmax hab
          have hpos := binary32.roundMag_pos binary32_prec (b - a) K hK hg
          simp only [fsub]
          rw [binary32.round_pos (b - a) _ (by linarith)]
          split_ifs <;> simp [flt, hpos]

theorem ina219_constructor_divisor_positive_witness :
    (flit 3).IsF32 ∧ (flit (21 / 5)).IsF32 ∧ flt (flit 3) (flit (21 / 5)) = true ∧
      battery.maxVoltage = flit (21 / 5) ∧ battery.minVoltage = flit 3 ∧
      battery.initialized = false ∧
      flt (flit 0) (fsub binary32 battery.maxVoltage battery.minVoltage) = true :=
  ⟨by decide!, by decide!, by decide!,
    ina219_constructor_divisor_positive "battery" "Battery Monitor" (flit (21 / 5)) (flit 3) true
      (by decide!) (by decide!) (by decide!)⟩

end Varta
